import Mathlib

/-!
Verification of the SVG polygon-combiner pipeline (src/main.rs).

The program reads an SVG document, extracts path shapes from the node tree
(`extract_paths`), flattens each path into polygonal contours via lyon's
flattening iterator, combines the per-shape polygon groups with clipper2
offset/difference/union operations, cleans the result up
(simplify / filter_small / re-union / simplify), and emits a single-path SVG.

Embedding conventions:
  * 2-D points are pairs of rationals (the source uses f64; clipper2 scales
    them to integers, so exact rational arithmetic is the faithful model of
    the values the claims speak about).
  * The external clipper2 engine (offset, boolean ops, simplify) is the
    out-of-scope collaborator of the spec; it is a parameter (`ClipEngine`)
    whose `union`/`difference` can fail, mirroring the Rust `Result` plus
    the `?` operator.  `signed_area`, used by the repository's own
    `filter_small`, is modelled concretely as the standard shoelace formula,
    which is what clipper2 computes.
  * The lyon tessellator is likewise a parameter: a function from a built
    path to its stream of flattening events.
  * Rust `for` loops with mutable accumulators become folds / explicit
    recursion with the accumulator threaded through.
-/

namespace SvgCombiner

/-- A 2-D point, double precision in the source, modelled exactly. -/
abbrev Point := ℚ × ℚ

/-- One polygonal contour: an ordered list of points (`Vec<(f64, f64)>`). -/
abbrev Contour := List Point

/-- A polygon set (`clipper2::Paths`): an ordered list of contours.  A
polygon group (all contours of one shape) has the same representation. -/
abbrev PolyPaths := List Contour

/-- A polygon group: the contours produced by flattening one path shape. -/
abbrev PGroup := List Contour

/-! ## Shape tree and the Shape Extractor (src/main.rs lines 22-69) -/

/-- One segment of a usvg path (`usvg::tiny_skia_path::PathSegment`). -/
inductive Seg where
  | moveTo (p : Point)
  | lineTo (p : Point)
  | quadTo (p1 p2 : Point)
  | cubicTo (p1 p2 p3 : Point)
  | close
deriving DecidableEq

/-- One command recorded by the lyon path builder (`begin`, `line_to`,
`quadratic_bezier_to`, `cubic_bezier_to`, `close`). -/
inductive PathCmd where
  | begin (p : Point)
  | lineTo (p : Point)
  | quadTo (p1 p2 : Point)
  | cubicTo (p1 p2 p3 : Point)
  | close
deriving DecidableEq

/-- A built lyon path: the sequence of builder commands. -/
abbrev LyonPath := List PathCmd

/-- The per-segment body of the builder loop in the `Node::Path` arm of
`extract_paths` (src/main.rs lines 28-53): each usvg segment is transcribed
into the corresponding lyon builder call. -/
def buildSeg : Seg → PathCmd
  | Seg.moveTo p => PathCmd.begin p
  | Seg.lineTo p => PathCmd.lineTo p
  | Seg.quadTo p1 p2 => PathCmd.quadTo p1 p2
  | Seg.cubicTo p1 p2 p3 => PathCmd.cubicTo p1 p2 p3
  | Seg.close => PathCmd.close

/-- The builder fed every segment, then built (src/main.rs lines 26-55). -/
def buildPath (segs : List Seg) : LyonPath := segs.map buildSeg

/-- A node of the usvg tree: a path (owning its segments), a group (owning
its ordered children), or any other node kind (the `_ => {}` arm). -/
inductive Node where
  | path (segs : List Seg)
  | group (children : List Node)
  | other

mutual

/-- The recursive extractor `extract_paths` (src/main.rs lines 22-64): a
`Path` node pushes one built lyon path onto the accumulator; a `Group` node
recurses over its children in order; any other node is ignored. -/
def extract_paths : Node → List LyonPath → List LyonPath
  | Node.path segs, paths => paths ++ [buildPath segs]
  | Node.group children, paths => extract_paths_children children paths
  | Node.other, paths => paths

/-- The `for child in group.children()` loop of `extract_paths`, also the
top-level `for node in tree.root().children()` loop (src/main.rs 67-69). -/
def extract_paths_children : List Node → List LyonPath → List LyonPath
  | [], paths => paths
  | n :: ns, paths => extract_paths_children ns (extract_paths n paths)

end

mutual

/-- Specification-side pre-order sequence of built paths: one entry per
reachable `Path` node, in document order. -/
def pathsPreorder : Node → List LyonPath
  | Node.path segs => [buildPath segs]
  | Node.group children => pathsPreorderList children
  | Node.other => []

/-- Pre-order sequence over a forest, left to right. -/
def pathsPreorderList : List Node → List LyonPath
  | [] => []
  | n :: ns => pathsPreorder n ++ pathsPreorderList ns

end

mutual

/-- Number of `Path`-kind nodes reachable from a node. -/
def countPathNodes : Node → Nat
  | Node.path _ => 1
  | Node.group children => countPathNodesList children
  | Node.other => 0

/-- Number of `Path`-kind nodes reachable from a forest. -/
def countPathNodesList : List Node → Nat
  | [] => 0
  | n :: ns => countPathNodes n + countPathNodesList ns

end

/-! ## Contour Flattener (src/main.rs lines 74-112) -/

/-- A flattening event from lyon's `flattened(TOLERANCE)` iterator:
`Begin at`, `Line to`, `End close` carrying the closed flag, and a
constructor standing for any other event shape (the `_ => {}` arm of the
match in the source). -/
inductive FlatEvent where
  | begin (p : Point)
  | line (p : Point)
  | end_ (close : Bool)
  | other
deriving DecidableEq

/-- State of the flattening loop for one path: the committed contours
(`contour_segments`) and the contour accumulation (`current_polygon`). -/
abbrev FlattenState := List Contour × Contour

/-- One iteration of the event loop (src/main.rs lines 82-104): `Begin`
restarts the accumulation at the begin point, `Line` appends the line end
point, `End` commits the accumulation to `contour_segments` exactly when
`close` is set and at least 3 points were accumulated, and any other event
does nothing.  The accumulation itself is never cleared by `End`. -/
def flattenStep (s : FlattenState) (e : FlatEvent) : FlattenState :=
  match e with
  | FlatEvent.begin p => (s.1, [p])
  | FlatEvent.line p => (s.1, s.2 ++ [p])
  | FlatEvent.end_ close =>
      if close ∧ 3 ≤ s.2.length then (s.1 ++ [s.2], s.2) else s
  | FlatEvent.other => s

/-- The whole event loop for one path, started from empty `contour_segments`
and empty `current_polygon`: the committed contours. -/
def flattenPath (events : List FlatEvent) : List Contour :=
  (events.foldl flattenStep ([], [])).1

/-- One iteration of the per-path loop (src/main.rs lines 78-112): the
path's committed contours are pushed as one group onto
`contour_segments_paths` only when the group is non-empty
(the `if !contour_segments.is_empty()` guard on line 106). -/
def groupStep (tess : LyonPath → List FlatEvent) (groups : List PGroup)
    (p : LyonPath) : List PGroup :=
  let contour_segments := flattenPath (tess p)
  if contour_segments.isEmpty then groups else groups ++ [contour_segments]

/-- The per-path loop of src/main.rs lines 78-112, parametrised by the
tessellator `tess` that turns a built path into its event stream. -/
def buildGroups (tess : LyonPath → List FlatEvent) (paths : List LyonPath) :
    List PGroup :=
  paths.foldl (groupStep tess) []

/-! ## The clipper2 collaborator -/

/-- clipper2 fill rules; the program only ever passes `nonZero`. -/
inductive FillRule where
  | evenOdd
  | nonZero
  | positive
  | negative
deriving DecidableEq

/-- clipper2 join types for offsetting; the program passes `round`. -/
inductive JoinType where
  | square
  | bevel
  | round
  | miter
deriving DecidableEq

/-- clipper2 end types for offsetting; the program passes `polygon`. -/
inductive EndType where
  | polygon
  | joined
  | butt
  | square
  | round
deriving DecidableEq

/-- The external polygon-clipping collaborator (spec section 6): offset/
inflate, boolean union and difference under a fill rule (which can fail with
a `ClipError`, the Rust `Result`), and simplification.  The combination
algorithm is stated for an arbitrary engine, as the spec's design notes
prescribe ("abstracted behind narrow capability interfaces"). -/
structure ClipEngine where
  inflate : PolyPaths → ℚ → JoinType → EndType → ℚ → PolyPaths
  union : PolyPaths → PolyPaths → FillRule → Except String PolyPaths
  difference : PolyPaths → PolyPaths → FillRule → Except String PolyPaths
  simplify : PolyPaths → ℚ → Bool → PolyPaths

/-- Consecutive cyclic point pairs of a contour (each point with its
successor, the last wrapping to the first). -/
def cyclePairs (c : Contour) : List (Point × Point) :=
  match c with
  | [] => []
  | p :: ps => List.zip c (ps ++ [p])

/-- clipper2's `signed_area`: the shoelace formula, half the cyclic sum of
cross products.  Positive for one orientation, negative for the other. -/
def signedArea (c : Contour) : ℚ :=
  ((cyclePairs c).map (fun pq => pq.1.1 * pq.2.2 - pq.2.1 * pq.1.2)).sum / 2

/-! ## Group Combiner (src/main.rs lines 117-133, 192-199) -/

/-- The combining loop (src/main.rs lines 117-127): for each group `g`, the
offset footprint `expanded` is computed; when `combined` is empty at that
iteration `combined` becomes `g` itself, otherwise the offset footprint is
subtracted from `combined` and `g` is unioned back in, each boolean op
propagating failure as the `?` operator does. -/
def combineLoop (E : ClipEngine) :
    List PGroup → PolyPaths → Except String PolyPaths
  | [], combined => Except.ok combined
  | g :: gs, combined =>
      let expanded := E.inflate g 10 JoinType.round EndType.polygon 0
      if combined.isEmpty then
        combineLoop E gs g
      else
        match E.difference combined expanded FillRule.nonZero with
        | Except.error e => Except.error e
        | Except.ok d =>
            match E.union d g FillRule.nonZero with
            | Except.error e => Except.error e
            | Except.ok u => combineLoop E gs u

/-- The repository's `filter_small` (src/main.rs lines 192-199): keep
exactly the contours whose signed area has absolute value at least
`min_area`, preserving order. -/
def filter_small (paths : PolyPaths) (min_area : ℚ) : PolyPaths :=
  paths.filter (fun p => min_area ≤ |signedArea p|)

/-- The cleanup pass (src/main.rs lines 130-133): coarse simplify, area
filter at threshold 50, union with the empty polygon set under the nonzero
fill rule (propagating failure), fine simplify. -/
def cleanup (E : ClipEngine) (combined : PolyPaths) : Except String PolyPaths :=
  let c1 := E.simplify combined (2/10) true
  let c2 := filter_small c1 50
  match E.union c2 [] FillRule.nonZero with
  | Except.error e => Except.error e
  | Except.ok c3 => Except.ok (E.simplify c3 (1/10) true)

/-! ## Path Emitter (src/main.rs lines 139-170) -/

/-- One SVG path-data command of the emitted `d` string. -/
inductive DCmd where
  | moveTo (p : Point)
  | lineTo (p : Point)
  | closePath
deriving DecidableEq

/-- The `d`-string building loop (src/main.rs lines 139-156): an empty
contour is skipped (the source checks `poly.is_empty()` and then
`points.is_empty()`, the same condition twice); a nonempty contour appends
`M first`, one `L` per remaining point, then `Z`. -/
def buildDStep (d : List DCmd) (poly : Contour) : List DCmd :=
  match poly with
  | [] => d
  | first :: rest =>
      d ++ (DCmd.moveTo first :: (rest.map DCmd.lineTo ++ [DCmd.closePath]))

/-- The whole `d`-building loop over the combined polygon set. -/
def buildD (combined : PolyPaths) : List DCmd :=
  combined.foldl buildDStep []

/-- The emitted SVG document (src/main.rs lines 158-170): viewBox corner and
extent, width and height, and the single path element's fill, fill-rule,
stroke and draw commands. -/
structure OutputSvg where
  viewBoxMinX : ℚ
  viewBoxMinY : ℚ
  viewBoxW : ℚ
  viewBoxH : ℚ
  width : ℚ
  height : ℚ
  fill : String
  fillRule : String
  stroke : String
  d : List DCmd
deriving DecidableEq

/-- The `format!` call of src/main.rs lines 158-170: viewBox `0 0 w h`,
width and height the tree's declared canvas size, one path with
`fill="black" fill-rule="nonzero" stroke="none"` and the built commands. -/
def emitSvg (w h : ℚ) (combined : PolyPaths) : OutputSvg :=
  ⟨0, 0, w, h, w, h, "black", "nonzero", "none", buildD combined⟩

/-! ## The whole pipeline (src/main.rs main) -/

/-- The pipeline after parsing, parametrised by the clipping engine, the
tessellator, the declared canvas size and the root's children: extract the
paths, flatten them into groups, run the combining loop from the empty set,
clean up, and emit the document together with the reported output polygon
count (src/main.rs line 135). -/
def pipeline (E : ClipEngine) (tess : LyonPath → List FlatEvent) (w h : ℚ)
    (rootChildren : List Node) : Except String (OutputSvg × Nat) :=
  let paths := extract_paths_children rootChildren []
  let groups := buildGroups tess paths
  match combineLoop E groups [] with
  | Except.error e => Except.error e
  | Except.ok combined0 =>
      match cleanup E combined0 with
      | Except.error e => Except.error e
      | Except.ok combined =>
          Except.ok (emitSvg w h combined, combined.length)

/-! ## Specification-side definitions (written from the spec's words, for
the refinement claims) -/

/-- Spec 4.3 steps 1-3, one fold step: if the accumulator is empty it
becomes `g` itself, otherwise `union(difference(acc, offset(g)), g)` under
the nonzero fill rule, difference strictly before union. -/
def specCombineStep (E : ClipEngine) (combined : PolyPaths) (g : PGroup) :
    Except String PolyPaths :=
  if combined.isEmpty then Except.ok g
  else
    (E.difference combined (E.inflate g 10 JoinType.round EndType.polygon 0)
        FillRule.nonZero).bind
      (fun d => E.union d g FillRule.nonZero)

/-- Spec 4.3: the Group Combiner as a left fold of `specCombineStep`
starting from the empty combined set. -/
def specCombine (E : ClipEngine) (groups : List PGroup) :
    Except String PolyPaths :=
  List.foldlM (specCombineStep E) [] groups

/-- The coarse simplification tolerance of cleanup step 1 (`0.2`). -/
def coarseTolerance : ℚ := 2/10

/-- The fine simplification tolerance of cleanup step 4 (`0.1`). -/
def fineTolerance : ℚ := 1/10

/-- The minimum-area threshold of the small-artifact filter (`50.0`). -/
def minArea : ℚ := 50

/-- Spec 4.3 step 4, the four cleanup steps in order: coarse simplify, area
filter, union with the empty polygon set under the nonzero fill rule, fine
simplify. -/
def specCleanup (E : ClipEngine) (c : PolyPaths) : Except String PolyPaths :=
  let step1 := E.simplify c coarseTolerance true
  let step2 := filter_small step1 minArea
  Except.map (fun step3 => E.simplify step3 fineTolerance true)
    (E.union step2 [] FillRule.nonZero)

/-- Spec 4.4: the commands emitted for one contour: nothing for an empty
contour; otherwise move-to the first point, line-to each subsequent point,
then close. -/
def emitContourCmds (c : Contour) : List DCmd :=
  match c with
  | [] => []
  | first :: rest => DCmd.moveTo first :: (rest.map DCmd.lineTo ++ [DCmd.closePath])

/-! ## Concrete instances used by witnesses and counterexamples -/

/-- A trivial but lawful-looking concrete engine: offset and simplify leave
the set unchanged, union concatenates, difference keeps the left operand.
Used to instantiate theorems with hypotheses at concrete inputs. -/
def okEngine : ClipEngine :=
  ⟨fun ps _ _ _ _ => ps,
   fun a b _ => Except.ok (a ++ b),
   fun a _ _ => Except.ok a,
   fun ps _ _ => ps⟩

/-- A tiny triangle of area 1/2, far below the threshold 50. -/
def tinyTriangle : Contour := [(0, 0), (1, 0), (0, 1)]

/-- An engine whose simplify appends a tiny sliver contour — allowed by the
clipping collaborator's interface, which promises nothing about the areas
simplify produces.  Its boolean ops behave like `okEngine`. -/
def sliverEngine : ClipEngine :=
  ⟨fun ps _ _ _ _ => ps,
   fun a b _ => Except.ok (a ++ b),
   fun a _ _ => Except.ok a,
   fun ps _ _ => ps ++ [tinyTriangle]⟩

/-- An axis-aligned 10 by 10 square, area 100. -/
def square10 : Contour := [(0, 0), (10, 0), (10, 10), (0, 10)]

/-- A tessellator for the counterexample to claim 4: the empty built path
flattens to a single open (unclosed) subpath, committing no contour; any
other built path flattens to a closed triangle. -/
def tessCex : LyonPath → List FlatEvent := fun p =>
  if p.isEmpty then
    [FlatEvent.begin (0, 0), FlatEvent.line (1, 0), FlatEvent.end_ false]
  else
    [FlatEvent.begin (0, 0), FlatEvent.line (10, 0), FlatEvent.line (10, 10),
      FlatEvent.end_ true]

/-- Two built paths: one flattening (under `tessCex`) to an empty group,
one to a single-contour group. -/
def cexPaths : List LyonPath := [[], [PathCmd.close]]

end SvgCombiner

namespace SvgCombiner

/-! ## Helper lemmas -/

mutual

theorem extract_paths_eq (n : Node) (acc : List LyonPath) :
    extract_paths n acc = acc ++ pathsPreorder n := by
  cases n with
  | path segs => simp [extract_paths, pathsPreorder]
  | group children =>
      rw [extract_paths, pathsPreorder]
      exact extract_paths_children_eq children acc
  | other => simp [extract_paths, pathsPreorder]

theorem extract_paths_children_eq (ns : List Node) (acc : List LyonPath) :
    extract_paths_children ns acc = acc ++ pathsPreorderList ns := by
  cases ns with
  | nil => simp [extract_paths_children, pathsPreorderList]
  | cons n ns' =>
      rw [extract_paths_children, pathsPreorderList, extract_paths_eq n acc,
        extract_paths_children_eq ns' (acc ++ pathsPreorder n)]
      simp

end

mutual

theorem pathsPreorder_length (n : Node) :
    (pathsPreorder n).length = countPathNodes n := by
  cases n with
  | path segs => simp [pathsPreorder, countPathNodes]
  | group children =>
      rw [pathsPreorder, countPathNodes]
      exact pathsPreorderList_length children
  | other => simp [pathsPreorder, countPathNodes]

theorem pathsPreorderList_length (ns : List Node) :
    (pathsPreorderList ns).length = countPathNodesList ns := by
  cases ns with
  | nil => simp [pathsPreorderList, countPathNodesList]
  | cons n ns' =>
      rw [pathsPreorderList, countPathNodesList]
      simp [pathsPreorder_length n, pathsPreorderList_length ns']

end

theorem flattenSteps_inv (evs : List FlatEvent) :
    ∀ s : FlattenState, (∀ c ∈ s.1, 3 ≤ c.length) →
      ∀ c ∈ (evs.foldl flattenStep s).1, 3 ≤ c.length := by
  induction evs with
  | nil => intro s hs c hc; exact hs c hc
  | cons e evs ih =>
      intro s hs
      rw [List.foldl_cons]
      apply ih
      intro c hc
      cases e with
      | begin p => exact hs c hc
      | line p => exact hs c hc
      | other => exact hs c hc
      | end_ close =>
          by_cases hcl : (close = true) ∧ 3 ≤ s.2.length
          · simp only [flattenStep, if_pos hcl] at hc
            rcases List.mem_append.mp hc with h | h
            · exact hs c h
            · rw [List.mem_singleton] at h
              subst h
              exact hcl.2
          · simp only [flattenStep, if_neg hcl] at hc
            exact hs c hc

theorem combineLoop_eq_foldlM (E : ClipEngine) (gs : List PGroup) :
    ∀ acc : PolyPaths,
      combineLoop E gs acc = List.foldlM (specCombineStep E) acc gs := by
  induction gs with
  | nil => intro acc; rfl
  | cons g gs ih =>
      intro acc
      rw [List.foldlM_cons]
      by_cases hacc : acc.isEmpty = true
      · simp only [combineLoop, specCombineStep, hacc, if_pos]
        rw [ih g]
        rfl
      · cases hd : E.difference acc (E.inflate g 10 JoinType.round EndType.polygon 0)
            FillRule.nonZero with
        | error e =>
            simp only [combineLoop, specCombineStep, hacc, hd]
            simp
            rfl
        | ok d =>
            have hbind : (Except.ok d).bind (fun x => E.union x g FillRule.nonZero) =
                E.union d g FillRule.nonZero := rfl
            cases hu : E.union d g FillRule.nonZero with
            | error e =>
                simp only [combineLoop, specCombineStep, hacc, hd, hu]
                simp
                rw [hbind, hu]
                rfl
            | ok u =>
                simp only [combineLoop, specCombineStep, hacc, hd, hu]
                simp
                rw [hbind, hu, ih u]
                rfl

theorem groupStep_foldl (tess : LyonPath → List FlatEvent)
    (paths : List LyonPath) :
    ∀ acc : List PGroup,
      paths.foldl (groupStep tess) acc =
        acc ++ ((paths.map fun p => flattenPath (tess p)).filter
          fun g => !g.isEmpty) := by
  induction paths with
  | nil => intro acc; simp
  | cons p paths ih =>
      intro acc
      by_cases hp : (flattenPath (tess p)).isEmpty = true
      · rw [List.foldl_cons,
          show groupStep tess acc p = acc from by simp [groupStep, hp], ih acc]
        simp [List.filter_cons, hp]
      · rw [List.foldl_cons,
          show groupStep tess acc p = acc ++ [flattenPath (tess p)] from by
            simp [groupStep, hp], ih]
        simp [List.filter_cons, hp]

theorem foldl_buildDStep (ps : PolyPaths) :
    ∀ d0 : List DCmd,
      ps.foldl buildDStep d0 = d0 ++ (ps.map emitContourCmds).flatten := by
  induction ps with
  | nil => intro d0; simp
  | cons poly ps ih =>
      intro d0
      rw [List.foldl_cons, List.map_cons, List.flatten_cons]
      cases poly with
      | nil =>
          rw [show buildDStep d0 [] = d0 from rfl, ih d0]
          simp [emitContourCmds]
      | cons first rest =>
          rw [show buildDStep d0 (first :: rest) =
              d0 ++ (DCmd.moveTo first :: (rest.map DCmd.lineTo ++ [DCmd.closePath]))
            from rfl, ih]
          simp [emitContourCmds]

/-! ## Claim theorems -/

/-- C1: the Group Combiner computes its result as a left fold over the
polygon groups in extraction order, starting from the empty combined set,
where each step seeds with `g` itself when the accumulator is empty at that
iteration and otherwise takes `union(difference(acc, offset(g)), g)` under
the nonzero fill rule, difference strictly before union. -/
theorem claim1_combine_fold (E : ClipEngine) (groups : List PGroup) :
    combineLoop E groups [] = specCombine E groups :=
  combineLoop_eq_foldlM E groups []

/-- C2: the cleanup pass applies exactly four operations unconditionally in
order — coarse simplify, minimum-area filter, union with the empty polygon
set under the nonzero fill rule, fine simplify — and the fine tolerance is
strictly smaller than the coarse one. -/
theorem claim2_cleanup_sequence (E : ClipEngine) (c : PolyPaths) :
    cleanup E c = specCleanup E c ∧ fineTolerance < coarseTolerance := by
  constructor
  · simp only [cleanup, specCleanup, coarseTolerance, fineTolerance, minArea]
    cases h : E.union (filter_small (E.simplify c (2/10) true) 50) []
        FillRule.nonZero with
    | error e => rfl
    | ok c3 => rfl
  · rw [fineTolerance, coarseTolerance]
    norm_num

/-- C4 (amended): each path shape flattens to exactly one, possibly empty,
list of committed contours, but a shape whose list is empty contributes no
polygon group: the groups handed to the combiner are the per-path flattening
results with the empty ones filtered out, order preserved. -/
theorem claim4_groups_filtered (tess : LyonPath → List FlatEvent)
    (paths : List LyonPath) :
    buildGroups tess paths =
      ((paths.map fun p => flattenPath (tess p)).filter fun g => !g.isEmpty) := by
  rw [buildGroups, groupStep_foldl tess paths]
  rfl

/-- C4 counterexample: under `tessCex`, the first of the two built paths of
`cexPaths` flattens to an empty polygon group, yet the combiner receives
only one group — the empty group is removed from the sequence, contradicting
the claim that empty groups still enter the combiner loop. -/
theorem claim4_counterexample :
    flattenPath (tessCex []) = [] ∧
    (buildGroups tessCex cexPaths).length = 1 ∧
    cexPaths.length = 2 := by
  refine ⟨rfl, rfl, rfl⟩

/-- C5: the Shape Extractor produces exactly the pre-order (document order)
sequence of built paths, one per reachable Path node, and the number of
extracted paths equals the number of reachable Path nodes, whatever the
group nesting. -/
theorem claim5_extract_preorder_count (nodes : List Node) :
    extract_paths_children nodes [] = pathsPreorderList nodes ∧
    (extract_paths_children nodes []).length = countPathNodesList nodes := by
  have h : extract_paths_children nodes [] = pathsPreorderList nodes := by
    rw [extract_paths_children_eq nodes []]
    rfl
  exact ⟨h, by rw [h]; exact pathsPreorderList_length nodes⟩

/-- C7: the emitted document has width and height the declared canvas size,
viewBox `0 0 width height`, one black-filled path with fill-rule nonzero and
no stroke, and its draw commands are, per nonempty contour in order, a
move-to of the first point, a line-to per subsequent point, then a close,
with zero-point contours skipped. -/
theorem claim7_emitter (w h : ℚ) (ps : PolyPaths) :
    (emitSvg w h ps).width = w ∧ (emitSvg w h ps).height = h ∧
    (emitSvg w h ps).viewBoxMinX = 0 ∧ (emitSvg w h ps).viewBoxMinY = 0 ∧
    (emitSvg w h ps).viewBoxW = w ∧ (emitSvg w h ps).viewBoxH = h ∧
    (emitSvg w h ps).fill = "black" ∧
    (emitSvg w h ps).fillRule = "nonzero" ∧
    (emitSvg w h ps).stroke = "none" ∧
    (emitSvg w h ps).d = (ps.map emitContourCmds).flatten := by
  refine ⟨rfl, rfl, rfl, rfl, rfl, rfl, rfl, rfl, rfl, ?_⟩
  show buildD ps = (ps.map emitContourCmds).flatten
  rw [buildD, foldl_buildDStep ps]
  rfl

/-- C6: every contour committed by flattening has at least 3 points, and at
each event the committed-contour list is extended — by the current
accumulation, exactly once — precisely when the event is an end-subpath
event with `close = true` and the accumulation holds at least 3 points;
every other event leaves the committed list unchanged. -/
theorem claim6_commit_iff_closed (evs : List FlatEvent) :
    (∀ c ∈ flattenPath evs, 3 ≤ c.length) ∧
    (∀ (s : FlattenState) (e : FlatEvent),
      (flattenStep s e).1 =
        if e = FlatEvent.end_ true ∧ 3 ≤ s.2.length
        then s.1 ++ [s.2] else s.1) := by
  constructor
  · intro c hc
    exact flattenSteps_inv evs ([], []) (by intro x hx; simp at hx) c hc
  · intro s e
    cases e with
    | begin p => simp [flattenStep]
    | line p => simp [flattenStep]
    | other => simp [flattenStep]
    | end_ close =>
        cases close with
        | false => simp [flattenStep]
        | true => simp [flattenStep, apply_ite]

/-- C3 (amended): immediately after the small-artifact filter — cleanup step
2 — every remaining contour has unsigned area at least the threshold; the
subsequent re-union and fine simplify, performed by the external clipping
engine, are not constrained by the code to preserve this bound. -/
theorem claim3_area_after_filter (ps : PolyPaths) (m : ℚ) :
    ∀ c ∈ filter_small ps m, m ≤ |signedArea c| := by
  intro c hc
  rw [filter_small, List.mem_filter] at hc
  simpa using hc.2

theorem claim3_witness : (50 : ℚ) ≤ |signedArea square10| := by
  apply claim3_area_after_filter [square10] 50 square10
  rw [filter_small]
  refine List.mem_filter.mpr ⟨List.mem_singleton_self _, ?_⟩
  rw [decide_eq_true_eq]
  norm_num [signedArea, square10, cyclePairs]

/-- C3 counterexample: with an engine whose simplify appends a tiny sliver —
behaviour the clipping collaborator's interface does not rule out — the
value produced by the full cleanup pass contains a contour of unsigned area
1/2, far below the threshold 50: the code only enforces the area bound
before the re-union and final simplify, not after them. -/
theorem claim3_counterexample :
    cleanup sliverEngine [] = Except.ok [tinyTriangle] ∧
    |signedArea tinyTriangle| < 50 := by
  have harea : signedArea tinyTriangle = 1/2 := by
    norm_num [signedArea, tinyTriangle, cyclePairs]
  constructor
  · have hf : filter_small (sliverEngine.simplify [] (2/10) true) 50 = [] := by
      show filter_small [tinyTriangle] 50 = []
      rw [filter_small, List.filter_cons]
      rw [show (decide ((50:ℚ) ≤ |signedArea tinyTriangle|)) = false from by
        rw [decide_eq_false_iff_not, harea,
          abs_of_nonneg (by norm_num : (0:ℚ) ≤ 1/2)]
        norm_num]
      rfl
    simp only [cleanup, hf]
    rfl
  · rw [harea, abs_of_nonneg (by norm_num : (0:ℚ) ≤ 1/2)]
    norm_num

/-- C8: for an input whose extracted path sequence is empty, and any engine
whose simplify and union send empty polygon sets to empty results (the
no-op algebra on the empty set the spec ascribes to the collaborator), the
run succeeds: the combined result after the fold and the cleanup is empty,
the emitted document's draw-command list is empty, and the reported output
polygon count is zero. -/
theorem claim8_empty_input (E : ClipEngine) (tess : LyonPath → List FlatEvent)
    (w h : ℚ) (nodes : List Node)
    (hextract : extract_paths_children nodes [] = [])
    (hs1 : E.simplify [] (2/10) true = [])
    (hs2 : E.simplify [] (1/10) true = [])
    (hu : E.union [] [] FillRule.nonZero = Except.ok []) :
    pipeline E tess w h nodes = Except.ok (emitSvg w h [], 0) ∧
    (emitSvg w h []).d = [] ∧
    cleanup E [] = Except.ok [] := by
  have hclean : cleanup E [] = Except.ok [] := by
    have hf : filter_small (E.simplify [] (2/10) true) 50 = [] := by
      rw [hs1]
      rfl
    simp only [cleanup, hf, hu]
    rw [hs2]
  refine ⟨?_, rfl, hclean⟩
  simp only [pipeline, hextract]
  rw [show buildGroups tess [] = [] from rfl]
  rw [show combineLoop E [] [] = Except.ok [] from rfl]
  show (match cleanup E [] with
    | Except.error e => Except.error e
    | Except.ok combined => Except.ok (emitSvg w h combined, combined.length)) =
      Except.ok (emitSvg w h [], 0)
  rw [hclean]
  rfl

theorem claim8_witness :
    pipeline okEngine (fun _ => []) 100 100 [] = Except.ok (emitSvg 100 100 [], 0) ∧
    (emitSvg 100 100 []).d = [] ∧
    cleanup okEngine [] = Except.ok [] :=
  claim8_empty_input okEngine (fun _ => []) 100 100 [] rfl rfl rfl rfl

/-- C9: the pipeline is deterministic — it is a function of the engine, the
tessellator, the canvas size and the node tree, with all iteration over
ordered lists, so two runs on equal inputs produce equal outputs. -/
theorem claim9_deterministic (E1 E2 : ClipEngine)
    (t1 t2 : LyonPath → List FlatEvent) (w1 w2 h1 h2 : ℚ)
    (n1 n2 : List Node)
    (hE : E1 = E2) (ht : t1 = t2) (hw : w1 = w2) (hh : h1 = h2)
    (hn : n1 = n2) :
    pipeline E1 t1 w1 h1 n1 = pipeline E2 t2 w2 h2 n2 := by
  subst hE
  subst ht
  subst hw
  subst hh
  subst hn
  rfl

theorem claim9_witness :
    pipeline okEngine (fun _ => []) 100 100 [] =
      pipeline okEngine (fun _ => []) 100 100 [] :=
  claim9_deterministic okEngine okEngine (fun _ => []) (fun _ => [])
    100 100 100 100 [] [] rfl rfl rfl rfl rfl

/-- C10: the small-artifact filter is order- and point-preserving (its
output is a sublist of its input), it retains a contour exactly when the
absolute value of the contour's signed area is at least the threshold — so
a contour whose unsigned area equals the threshold is retained — and
orientation (the sign of the signed area) never affects retention. -/
theorem claim10_filter_small_spec (ps : PolyPaths) (m : ℚ) :
    (filter_small ps m).Sublist ps ∧
    (∀ p ∈ ps, m ≤ |signedArea p| → p ∈ filter_small ps m) ∧
    (∀ p ∈ filter_small ps m, p ∈ ps ∧ m ≤ |signedArea p|) ∧
    (∀ p ∈ ps, |signedArea p| = m → p ∈ filter_small ps m) ∧
    (∀ p q : Contour, signedArea p = -signedArea q →
      (m ≤ |signedArea p| ↔ m ≤ |signedArea q|)) := by
  refine ⟨List.filter_sublist ps, ?_, ?_, ?_, ?_⟩
  · intro p hp h
    rw [filter_small, List.mem_filter]
    exact ⟨hp, by simpa using h⟩
  · intro p hp
    rw [filter_small, List.mem_filter] at hp
    exact ⟨hp.1, by simpa using hp.2⟩
  · intro p hp h
    rw [filter_small, List.mem_filter]
    exact ⟨hp, by simp [h]⟩
  · intro p q h
    rw [h, abs_neg]

end SvgCombiner
